import Mathlib

/-!
Verification development for the GTFS bus predictor service.

The program keeps six immutable GTFS tables (stops, stop_times, trips,
calendar, calendar_dates, routes) and, per request, resolves the active
service set for today, joins stop_times with the active trips, and for
every stop computes the next two departures per (route, destination)
group together with a minutes-remaining value, handling GTFS extended
times (hour at least 24).  An independent utility returns the nearest
configured group by great-circle distance.

The embedding below follows the canonical source variant (app copy.py):
pure functions over lists; Python exceptions that escape the handlers are
modelled by Option (none = the request aborts); datetimes are absolute
civil seconds as Int, with floor division mirroring the Python operators.
-/

namespace BusApi

/-! ### Python string and integer primitives -/

/-- Drop whitespace at both ends, as Python str.strip(). -/
def trimChars (cs : List Char) : List Char :=
  ((cs.dropWhile Char.isWhitespace).reverse.dropWhile Char.isWhitespace).reverse

/-- Digit run as accepted by Python int(): nonempty digits with single
underscores strictly between digits. -/
def pyDigits : List Char → Bool
  | [] => false
  | [c] => c.isDigit
  | c :: d :: rest =>
    c.isDigit && (if d = '_' then pyDigits rest else pyDigits (d :: rest))

/-- Numeric value of a digit run, ignoring separator underscores. -/
def digitsVal (cs : List Char) : Int :=
  cs.foldl (fun a c => if c = '_' then a else a * 10 + ((c.toNat : Int) - 48)) 0

/-- Python int(str): strip whitespace, optional sign, digit run. -/
def pyParseIntChars (cs : List Char) : Option Int :=
  match trimChars cs with
  | '+' :: rest => if pyDigits rest then some (digitsVal rest) else none
  | '-' :: rest => if pyDigits rest then some (-(digitsVal rest)) else none
  | rest => if pyDigits rest then some (digitsVal rest) else none

def pyParseInt (s : String) : Option Int :=
  pyParseIntChars s.data

/-- Python s.split(sep) for a single-character separator, on char lists. -/
def splitCols : List Char → List (List Char)
  | [] => [[]]
  | c :: cs =>
    if c = ':' then [] :: splitCols cs
    else
      match splitCols cs with
      | [] => [[c]]
      | g :: gs => (c :: g) :: gs

/-- Python s[:5]. -/
def pyPrefix5 (s : String) : String :=
  ⟨s.data.take 5⟩

/-- Python str.strip(). -/
def pyStrip (s : String) : String :=
  ⟨trimChars s.data⟩

/-- Lexicographic comparison of code-point sequences; a strict prefix is
smaller.  This is exactly the Python string less-than. -/
def charsLt : List Char → List Char → Bool
  | _, [] => false
  | [], _ :: _ => true
  | a :: as, b :: bs =>
    if a.toNat < b.toNat then true
    else if b.toNat < a.toNat then false
    else charsLt as bs

def pyStrLt (a b : String) : Bool :=
  charsLt a.data b.data

def pyStrLe (a b : String) : Bool :=
  !(pyStrLt b a)

/-- Second component of the regex behind strptime %M: two digits 00-59 or a
single digit, consuming the whole remaining input. -/
def matchMEnd : List Char → Option Nat
  | [a] => if a.isDigit then some (a.toNat - 48) else none
  | [a, b] =>
    if (('0' ≤ a && a ≤ '5') && b.isDigit) then
      some ((a.toNat - 48) * 10 + (b.toNat - 48))
    else none
  | _ => none

/-- Two-digit alternative of the regex behind strptime %H (00-23). -/
def twoDigitH (a b : Char) : Bool :=
  (a = '2' && ('0' ≤ b && b ≤ '3')) || ((a = '0' || a = '1') && b.isDigit)

/-- Python datetime.strptime(s, %H:%M): ordered regex alternatives with
backtracking, requiring the whole string to be consumed.  Fails exactly when
the hour is not a valid 0-23 wall-clock hour in this shape. -/
def parseHM (s : String) : Option (Nat × Nat) :=
  match s.data with
  | a :: b :: rest =>
    (if twoDigitH a b then
        match rest with
        | ':' :: rest2 =>
          (matchMEnd rest2).map (fun m => ((a.toNat - 48) * 10 + (b.toNat - 48), m))
        | _ => none
      else none)
    <|>
    (if a.isDigit && b = ':' then
        (matchMEnd rest).map (fun m => (a.toNat - 48, m))
      else none)
  | _ => none

/-- The list comprehension [int(p) for p in s.split(sep)] followed by access
to the first two components; none models the ValueError / IndexError that
would abort the request. -/
def pyTimeParts (s : String) : Option (Int × Int) :=
  match (splitCols s.data).mapM pyParseIntChars with
  | some (h :: m :: _) => some (h, m)
  | _ => none

/-- First five characters form a two-digit hour, colon, two-digit minute. -/
def isHM (s : String) : Bool :=
  match s.data with
  | [a, b, c, d, e] => a.isDigit && b.isDigit && c = ':' && d.isDigit && e.isDigit
  | _ => false

/-! ### Civil datetimes as absolute seconds -/

/-- Midnight of the calendar day containing t (datetime.replace of the time
fields to a fresh hour and minute keeps this day). -/
def dayStart (t : Int) : Int :=
  t.fdiv 86400 * 86400

/-- t with its seconds zeroed: replace(second=0, microsecond=0). -/
def truncMin (t : Int) : Int :=
  t.fdiv 60 * 60

def hourOf (t : Int) : Int := (t.fmod 86400).fdiv 3600

def minuteOf (t : Int) : Int := (t.fmod 3600).fdiv 60

def secondOf (t : Int) : Int := t.fmod 60

def pad2 (n : Nat) : String :=
  if n < 10 then "0" ++ toString n else toString n

/-- strftime of the %H:%M:%S pattern. -/
def fmtHMS (t : Int) : String :=
  pad2 (hourOf t).toNat ++ ":" ++ pad2 (minuteOf t).toNat ++ ":" ++ pad2 (secondOf t).toNat

/-! ### GTFS tables -/

structure Stop where
  stop_id : Int
  stop_name : String
deriving DecidableEq, Repr

structure StopTime where
  trip_id : Int
  stop_id : Int
  departure_time : String
deriving DecidableEq, Repr

structure Trip where
  trip_id : Int
  service_id : Int
  route_id : Int
  trip_headsign : String
deriving DecidableEq, Repr

structure CalRule where
  service_id : Int
  monday : Int
  tuesday : Int
  wednesday : Int
  thursday : Int
  friday : Int
  saturday : Int
  sunday : Int
  start_date : Int
  end_date : Int
deriving DecidableEq, Repr

structure CalExc where
  service_id : Int
  date : Int
  exception_type : Int
deriving DecidableEq, Repr

structure Route where
  route_id : Int
  route_short_name : String
deriving DecidableEq, Repr

structure Gtfs where
  stops : List Stop
  stop_times : List StopTime
  trips : List Trip
  calendar : List CalRule
  calendar_dates : List CalExc
  routes : List Route
deriving Repr

/-- The dias_semana column selected for the weekday of today
(Python weekday(): Monday is 0). -/
def dayFlag (wd : Fin 7) (r : CalRule) : Int :=
  match wd.val with
  | 0 => r.monday
  | 1 => r.tuesday
  | 2 => r.wednesday
  | 3 => r.thursday
  | 4 => r.friday
  | 5 => r.saturday
  | _ => r.sunday

/-! ### Service-day resolution -/

/-- servicios_activos: weekday-flagged calendar rows, plus exception rows of
type 1 dated today, minus exception rows of type 2 dated today.  The
start_date and end_date columns of calendar are never consulted. -/
def activeServices (cal : List CalRule) (cd : List CalExc) (wd : Fin 7) (today : Int) :
    List Int :=
  let base := (cal.filter (fun r => dayFlag wd r = 1)).map (fun r => r.service_id)
  let added :=
    (cd.filter (fun e => e.date = today ∧ e.exception_type = 1)).map (fun e => e.service_id)
  let removed :=
    (cd.filter (fun e => e.date = today ∧ e.exception_type = 2)).map (fun e => e.service_id)
  (base ++ added).filter (fun s => ¬ s ∈ removed)

/-! ### Trip join -/

/-- A row of df_horarios_base: stop_times inner-merged with the trips of the
active services on trip_id. -/
structure Row where
  trip_id : Int
  stop_id : Int
  departure_time : String
  service_id : Int
  route_id : Int
  trip_headsign : String
deriving DecidableEq, Repr

def mergeRows (stop_times : List StopTime) (trips : List Trip) : List Row :=
  stop_times.flatMap (fun st =>
    (trips.filter (fun tr => tr.trip_id = st.trip_id)).map (fun tr =>
      ⟨st.trip_id, st.stop_id, st.departure_time, tr.service_id, tr.route_id,
        tr.trip_headsign⟩))

/-- df_horarios_base for the invocation: trips restricted to the active
services, merged with stop_times. -/
def rowsBaseOf (g : Gtfs) (activos : List Int) : List Row :=
  mergeRows g.stop_times (g.trips.filter (fun tr => tr.service_id ∈ activos))

/-! ### Stop line enumeration -/

/-- Lexicographic order on the groupby keys (route_id, trip_headsign). -/
def pairLe (a b : Int × String) : Bool :=
  a.1 < b.1 || (a.1 = b.1 && pyStrLe a.2 b.2)

/-- obtener_lineas_id_parada: the distinct (route_id, trip_headsign) groups
observed at the stop, in groupby key order, left-merged with routes to pick
up route_short_name (none models the NaN of an unmatched route). -/
def lineasFor (rows : List Row) (routes : List Route) (pid : Int) :
    List (Int × Option String × String) :=
  let dfp := rows.filter (fun r => r.stop_id = pid)
  let pairs := ((dfp.map (fun r => (r.route_id, r.trip_headsign))).dedup).mergeSort pairLe
  pairs.flatMap (fun p =>
    match routes.filter (fun r => r.route_id = p.1) with
    | [] => [(p.1, none, p.2)]
    | rs => rs.map (fun r => (p.1, some r.route_short_name, p.2)))

/-! ### Next-departure calculation -/

structure DepartureEntry where
  linea : Option String
  proximo_bus : String
  siguiente_bus : String
  destino : String
  minutos_restantes : Option Int
deriving DecidableEq, Repr

def rowLe (a b : Row) : Bool :=
  pyStrLe a.departure_time b.departure_time

/-- The remaining departures of one (route, destination) group: rows strictly
after the current %H:%M:%S string (lexicographically), sorted ascending by
departure string, first two kept. -/
def proximosFor (rowsP : List Row) (rid : Int) (hs : String) (nowStr : String) :
    List Row :=
  let dfl := rowsP.filter (fun r => r.route_id = rid ∧ r.trip_headsign = hs)
  ((dfl.filter (fun r => pyStrLt nowStr r.departure_time)).mergeSort rowLe).take 2

/-- siguiente_bus: the second remaining departure, if any. -/
def sigOf : List Row → String
  | [] => "N/A"
  | r :: _ => pyPrefix5 r.departure_time

/-- Ordinary branch (strptime succeeded, hour below 24): candidate at that
hour and minute on the day of ahora; one day later when strictly before
ahora; floor of the second difference over 60. -/
def minutosOrdinario (h m : Nat) (t : Int) : Int :=
  let dt0 := dayStart t + (h : Int) * 3600 + (m : Int) * 60
  let dt := if dt0 < t then dt0 + 86400 else dt0
  (dt - t).fdiv 60

/-- Extended branch (strptime failed): hour taken modulo 24, hour-div-24
extra days added when the hour is at least 24, one day more when still
before the comparison instant, which is ahora with seconds zeroed. -/
def minutosExtendido (h m : Int) (t : Int) : Int :=
  let ac := truncMin t
  let dt0 := dayStart t + h.fmod 24 * 3600 + m * 60
  let dt1 := if 24 ≤ h then dt0 + h.fdiv 24 * 86400 else dt0
  let dt := if dt1 < ac then dt1 + 86400 else dt1
  (dt - ac).fdiv 60

/-- Body of the per-group loop of calcular_proximos_buses.  none models the
uncaught ValueError of the extended branch (a non-integer component, a
missing component, or a minute outside 0-59 fed to datetime.replace). -/
def computeLinea (rowsP : List Row) (t : Int) (nowStr : String) (rid : Int)
    (sn : Option String) (hs : String) : Option DepartureEntry :=
  match proximosFor rowsP rid hs nowStr with
  | [] => some ⟨sn, "N/A", "N/A", hs, none⟩
  | r0 :: rest =>
    let hstr := pyPrefix5 r0.departure_time
    match parseHM hstr with
    | some (h, m) => some ⟨sn, hstr, sigOf rest, hs, some (minutosOrdinario h m t)⟩
    | none =>
      match pyTimeParts r0.departure_time with
      | none => none
      | some (h, m) =>
        if 0 ≤ m ∧ m < 60 then
          some ⟨sn, hstr, sigOf rest, hs, some (minutosExtendido h m t)⟩
        else none

/-- List traversal that stops at the first none, as an uncaught exception
stops the surrounding loop. -/
def mapOpt (f : α → Option β) : List α → Option (List β)
  | [] => some []
  | x :: xs =>
    match f x with
    | none => none
    | some y => (mapOpt f xs).map (fun ys => y :: ys)

/-- calcular_proximos_buses for one stop: one entry per enumerated
(route, short name, destination) tuple. -/
def calcular (pid : Int) (rows : List Row) (routes : List Route) (t : Int)
    (nowStr : String) : Option (List DepartureEntry) :=
  let lineas := lineasFor rows routes pid
  let rowsP := rows.filter (fun r => r.stop_id = pid)
  mapOpt (fun l => computeLinea rowsP t nowStr l.1 l.2.1 l.2.2) lineas

/-! ### Multi-stop orchestration -/

inductive StopOut where
  | err (msg : String)
  | ok (nombre_parada : String) (stop_id : String) (horarios_ordenados : List DepartureEntry)
deriving DecidableEq, Repr

inductive BatchResult where
  | message (s : String)
  | results (m : List (String × StopOut))
deriving DecidableEq, Repr

def noServiceMsg : String := "No hay servicios programados para hoy."

/-- Identifier normalization: direct int() parse, then the digits left after
re.sub of non-digits, none when no digit remains.  (The inner int() retry on
a nonempty digit string cannot fail and is folded into the success case.) -/
def pyNormalizeId (s : String) : Option Int :=
  match pyParseInt s with
  | some n => some n
  | none =>
    let ds := s.data.filter Char.isDigit
    if ds.isEmpty then none else some (digitsVal ds)

def keyMinutos (e : DepartureEntry) : Int :=
  e.minutos_restantes.getD 0

def entLe (a b : DepartureEntry) : Bool :=
  keyMinutos a ≤ keyMinutos b

/-- One iteration of the per-stop loop: normalize the raw identifier, look
the numeric id up in stops, run the calculator, drop entries whose
minutos_restantes is still the absent value, sort ascending by
minutos_restantes, and emit under the original raw identifier.  The error
message texts of the source carry the interpolated identifiers; quote marks
are omitted here. -/
def processOne (g : Gtfs) (rowsBase : List Row) (t : Int) (nowStr : String)
    (raw : String) : Option (String × StopOut) :=
  let s := pyStrip raw
  match pyNormalizeId s with
  | none => some (s, .err ("ID " ++ s ++ " es puramente no numerico."))
  | some pid =>
    match (g.stops.filter (fun st => st.stop_id = pid)).head? with
    | none =>
      some (raw, .err ("ID numerico " ++ toString pid ++ " (derivado de " ++ raw ++
        ") no encontrado en stops.txt."))
    | some st =>
      (calcular pid rowsBase g.routes t nowStr).map (fun hsAll =>
        let validos := hsAll.filter (fun e => e.minutos_restantes ≠ none)
        let ordenados := validos.mergeSort entLe
        (raw, .ok st.stop_name raw ordenados))

/-- process_schedules_for_stops: resolve the active services for today, stop
with the terminal message when none is active, otherwise build the joined
timetable once and process every requested identifier independently. -/
def processBatch (g : Gtfs) (t : Int) (wd : Fin 7) (today : Int) (ids : List String) :
    Option BatchResult :=
  let nowStr := fmtHMS t
  let activos := activeServices g.calendar g.calendar_dates wd today
  if activos.isEmpty then some (.message noServiceMsg)
  else
    let rowsBase := rowsBaseOf g activos
    (mapOpt (processOne g rowsBase t nowStr) ids).map .results

/-! ### Geo-nearest resolver -/

structure GroupCfg where
  coords : Option String
deriving DecidableEq, Repr

/-- The coordinates a group contributes: skipped when the coords entry is
missing, empty (falsy), or rejected by the float parser.  The parser is a
parameter: the source parses two comma-separated floats, and any exception
it raises is caught by the loop, which is exactly a none here. -/
def coordsOf (parse : String → Option (ℚ × ℚ)) (cfg : GroupCfg) : Option (ℚ × ℚ) :=
  match cfg.coords with
  | none => none
  | some s => if s = "" then none else parse s

/-- Round to two decimals, as round(x, 2). -/
def round2 (q : ℚ) : ℚ :=
  (round (q * 100) : ℤ) / 100

/-- The scan of get_nearest_group: min_distance starts unset (infinity) and
a group replaces the best only with a strictly smaller distance. -/
def nearestAux (dist : ℚ → ℚ → ℚ → ℚ → ℚ) (parse : String → Option (ℚ × ℚ))
    (ulat ulon : ℚ) : List (String × GroupCfg) → Option (String × ℚ) → Option (String × ℚ)
  | [], best => best
  | (name, cfg) :: gs, best =>
    match coordsOf parse cfg with
    | none => nearestAux dist parse ulat ulon gs best
    | some (la, lo) =>
      let d := dist ulat ulon la lo
      match best with
      | none => nearestAux dist parse ulat ulon gs (some (name, d))
      | some (bn, bd) =>
        if d < bd then nearestAux dist parse ulat ulon gs (some (name, d))
        else nearestAux dist parse ulat ulon gs (some (bn, bd))

/-- get_nearest_group: none models the no-valid-group message path, some the
success payload of nearest name and distance rounded to two decimals. -/
def getNearestGroup (dist : ℚ → ℚ → ℚ → ℚ → ℚ) (parse : String → Option (ℚ × ℚ))
    (ulat ulon : ℚ) (groups : List (String × GroupCfg)) : Option (String × ℚ) :=
  (nearestAux dist parse ulat ulon groups none).map (fun p => (p.1, round2 p.2))

/-! ### Helper lemmas -/

theorem mapOpt_forall₂ {f : α → Option β} :
    ∀ {xs : List α} {ys : List β}, mapOpt f xs = some ys →
      List.Forall₂ (fun x y => f x = some y) xs ys := by
  intro xs
  induction xs with
  | nil =>
    intro ys h
    simp only [mapOpt] at h
    cases h
    exact List.Forall₂.nil
  | cons x xs ih =>
    intro ys h
    simp only [mapOpt] at h
    cases hfx : f x with
    | none => rw [hfx] at h; cases h
    | some y =>
      rw [hfx] at h
      cases hrest : mapOpt f xs with
      | none => rw [hrest] at h; cases h
      | some ys0 =>
        rw [hrest] at h
        simp only [Option.map_some] at h
        cases h
        exact List.Forall₂.cons hfx (ih hrest)

theorem forall₂_mem_right {R : α → β → Prop} :
    ∀ {xs : List α} {ys : List β}, List.Forall₂ R xs ys → ∀ y ∈ ys, ∃ x ∈ xs, R x y := by
  intro xs ys h
  induction h with
  | nil => intro y hy; cases hy
  | cons hR _ ih =>
    intro y hy
    rcases List.mem_cons.mp hy with hy | hy
    · exact ⟨_, List.mem_cons_self .., hy ▸ hR⟩
    · rcases ih y hy with ⟨x, hx, hxy⟩
      exact ⟨x, List.mem_cons_of_mem _ hx, hxy⟩

theorem forall₂_mem_left {R : α → β → Prop} :
    ∀ {xs : List α} {ys : List β}, List.Forall₂ R xs ys → ∀ x ∈ xs, ∃ y ∈ ys, R x y := by
  intro xs ys h
  induction h with
  | nil => intro x hx; cases hx
  | cons hR _ ih =>
    intro x hx
    rcases List.mem_cons.mp hx with hx | hx
    · exact ⟨_, List.mem_cons_self .., hx ▸ hR⟩
    · rcases ih x hx with ⟨y, hy, hxy⟩
      exact ⟨y, List.mem_cons_of_mem _ hy, hxy⟩

theorem dayStart_le (t : Int) : dayStart t ≤ t := by
  have h := Int.fdiv_add_fmod t 86400
  have h2 := @Int.fmod_nonneg' t 86400 (by norm_num)
  unfold dayStart
  omega

theorem lt_dayStart_add (t : Int) : t < dayStart t + 86400 := by
  have h := Int.fdiv_add_fmod t 86400
  have h2 := @Int.fmod_lt_of_pos t 86400 (by norm_num)
  unfold dayStart
  omega

theorem truncMin_le (t : Int) : truncMin t ≤ t := by
  have h := Int.fdiv_add_fmod t 60
  have h2 := @Int.fmod_nonneg' t 60 (by norm_num)
  unfold truncMin
  omega

theorem minutosOrdinario_nonneg (h m : Nat) (t : Int) : 0 ≤ minutosOrdinario h m t := by
  unfold minutosOrdinario
  dsimp only
  have hd := lt_dayStart_add t
  have hh : (0 : Int) ≤ (h : Int) * 3600 + (m : Int) * 60 := by positivity
  split
  · exact Int.fdiv_nonneg (by omega) (by norm_num)
  · exact Int.fdiv_nonneg (by omega) (by norm_num)

theorem minutosExtendido_nonneg (h m t : Int) (hm0 : 0 ≤ m) :
    0 ≤ minutosExtendido h m t := by
  unfold minutosExtendido
  dsimp only
  have hd := lt_dayStart_add t
  have htm := truncMin_le t
  have hmod : (0 : Int) ≤ h.fmod 24 := Int.fmod_nonneg' h (by norm_num)
  have hdt0 : dayStart t ≤ dayStart t + h.fmod 24 * 3600 + m * 60 := by
    have : (0 : Int) ≤ h.fmod 24 * 3600 + m * 60 := by positivity
    omega
  split
  case isTrue hh =>
    have hdiv : (0 : Int) ≤ h.fdiv 24 := Int.fdiv_nonneg (by omega) (by norm_num)
    split
    · exact Int.fdiv_nonneg (by nlinarith) (by norm_num)
    · exact Int.fdiv_nonneg (by omega) (by norm_num)
  case isFalse hh =>
    split
    · exact Int.fdiv_nonneg (by omega) (by norm_num)
    · exact Int.fdiv_nonneg (by omega) (by norm_num)

/-! ### C1: active service set -/

/-- C1.  For every calendar table, exception table and date, membership in
the computed active service set is: weekday-flag matched by some calendar
row (the date-range bounds never being consulted, witnessed by invariance
under arbitrary rewrites of start_date and end_date), or added by a type-1
exception dated today, and in either case not removed by a type-2 exception
dated today; in particular a service with a type-2 (REMOVED) exception for
today is never in the set. -/
theorem c1_active_service_set (cal : List CalRule) (cd : List CalExc) (wd : Fin 7)
    (today : Int) (s : Int) :
    (s ∈ activeServices cal cd wd today ↔
      ((∃ r ∈ cal, dayFlag wd r = 1 ∧ r.service_id = s) ∨
        (∃ e ∈ cd, e.date = today ∧ e.exception_type = 1 ∧ e.service_id = s)) ∧
      ¬ (∃ e ∈ cd, e.date = today ∧ e.exception_type = 2 ∧ e.service_id = s)) ∧
    ((∃ e ∈ cd, e.date = today ∧ e.exception_type = 2 ∧ e.service_id = s) →
      s ∉ activeServices cal cd wd today) ∧
    (∀ f g : CalRule → Int,
      (s ∈ activeServices
          (cal.map (fun r => { r with start_date := f r, end_date := g r })) cd wd today ↔
        s ∈ activeServices cal cd wd today)) := by
  have hmem : ∀ (cal2 : List CalRule),
      (s ∈ activeServices cal2 cd wd today ↔
        ((∃ r ∈ cal2, dayFlag wd r = 1 ∧ r.service_id = s) ∨
          (∃ e ∈ cd, e.date = today ∧ e.exception_type = 1 ∧ e.service_id = s)) ∧
        ¬ (∃ e ∈ cd, e.date = today ∧ e.exception_type = 2 ∧ e.service_id = s)) := by
    intro cal2
    simp only [activeServices, List.mem_filter, List.mem_append, List.mem_map,
      decide_not, Bool.not_eq_eq_eq_not, Bool.not_true, decide_eq_false_iff_not,
      decide_eq_true_eq]
    aesop
  refine ⟨hmem cal, ?_, ?_⟩
  · intro hrm hin
    exact ((hmem cal).mp hin).2 hrm
  · intro f g
    rw [hmem cal, hmem _]
    constructor
    · rintro ⟨hb, hr⟩
      refine ⟨?_, hr⟩
      rcases hb with ⟨r, hrmem, hflag, hrs⟩ | hb
      · rcases List.mem_map.mp hrmem with ⟨r0, hr0, rfl⟩
        exact Or.inl ⟨r0, hr0, hflag, hrs⟩
      · exact Or.inr hb
    · rintro ⟨hb, hr⟩
      refine ⟨?_, hr⟩
      rcases hb with ⟨r, hrmem, hflag, hrs⟩ | hb
      · exact Or.inl ⟨_, List.mem_map.mpr ⟨r, hrmem, rfl⟩, hflag, hrs⟩
      · exact Or.inr hb

theorem proximosFor_subset (rowsP : List Row) (rid : Int) (hs : String) (nowStr : String) :
    ∀ x ∈ proximosFor rowsP rid hs nowStr, x ∈ rowsP := by
  intro x hx
  unfold proximosFor at hx
  have h1 := List.take_subset 2 _ hx
  have h2 := (List.mergeSort_perm _ rowLe).mem_iff.mp h1
  exact List.mem_of_mem_filter (List.mem_of_mem_filter h2)

theorem computeLinea_minutos_nonneg {rowsP : List Row} {t : Int} {nowStr : String}
    {rid : Int} {sn : Option String} {hs : String} {e : DepartureEntry}
    (heq : computeLinea rowsP t nowStr rid sn hs = some e) :
    ∀ k, e.minutos_restantes = some k → 0 ≤ k := by
  intro k hk
  unfold computeLinea at heq
  rcases hp : proximosFor rowsP rid hs nowStr with _ | ⟨r0, rest⟩ <;> rw [hp] at heq
  · cases heq
    cases hk
  · dsimp only at heq
    rcases hparse : parseHM (pyPrefix5 r0.departure_time) with _ | ⟨h, m⟩ <;>
      rw [hparse] at heq
    · rcases hparts : pyTimeParts r0.departure_time with _ | ⟨h, m⟩ <;>
        rw [hparts] at heq
      · cases heq
      · dsimp only at heq
        split at heq
        case isTrue hcond =>
          cases heq
          simp only [DepartureEntry.minutos_restantes] at hk
          cases hk
          exact minutosExtendido_nonneg h m t hcond.1
        case isFalse => cases heq
    · cases heq
      simp only [DepartureEntry.minutos_restantes] at hk
      cases hk
      exact minutosOrdinario_nonneg h m t

/-! ### C10: resolved minutes-remaining values are nonnegative -/

/-- C10.  Every entry produced by the calculator whose minutos_restantes is
resolved carries a nonnegative integer: both the ordinary-time and the
extended-time branch push the candidate one day forward whenever it lies
before the comparison instant, so the floored delta is never negative. -/
theorem c10_minutos_nonneg (pid : Int) (rows : List Row) (routes : List Route)
    (t : Int) (nowStr : String) (es : List DepartureEntry)
    (hc : calcular pid rows routes t nowStr = some es) :
    ∀ e ∈ es, ∀ k, e.minutos_restantes = some k → 0 ≤ k := by
  intro e he k hk
  unfold calcular at hc
  have h2 := forall₂_mem_right (mapOpt_forall₂ hc) e he
  rcases h2 with ⟨l, _, hl⟩
  exact computeLinea_minutos_nonneg hl k hk

unseal List.merge List.mergeSort in
/-- Witness for C10 at a concrete input: a post-midnight departure in
extended notation close to midnight resolves to 15 minutes, and the bound
applies. -/
theorem c10_minutos_nonneg_witness :
    calcular 14165 [⟨1, 14165, "24:05:00", 10, 7, "Martorell"⟩] [⟨7, "R4"⟩]
        (23 * 3600 + 50 * 60) "23:50:00" =
      some [⟨some "R4", "24:05", "N/A", "Martorell", some 15⟩] ∧
    (0 : Int) ≤ 15 := by
  constructor
  · decide
  · exact c10_minutos_nonneg 14165 [⟨1, 14165, "24:05:00", 10, 7, "Martorell"⟩]
      [⟨7, "R4"⟩] (23 * 3600 + 50 * 60) "23:50:00"
      [⟨some "R4", "24:05", "N/A", "Martorell", some 15⟩] (by decide)
      ⟨some "R4", "24:05", "N/A", "Martorell", some 15⟩ (by decide) 15 (by decide)

/-! ### C2: extended GTFS notation -/

/-- C2.  When the soonest remaining departure of a group is in GTFS extended
notation (strptime rejected the five-character prefix and the parsed hour is
at least 24, with a valid minute), the calculator still emits a resolved
minutos_restantes, equal to the claimed construction: hour normalized
modulo 24 on the day of now, hour-div-24 whole days added, one further day
added when the candidate is still before the comparison instant (now with
its seconds zeroed, as the code compares), floored minute difference. -/
theorem c2_extended_time (rowsP : List Row) (t : Int) (nowStr : String)
    (rid : Int) (sn : Option String) (hs : String) (r0 : Row) (rest : List Row)
    (h m : Int)
    (hprox : proximosFor rowsP rid hs nowStr = r0 :: rest)
    (hparse : parseHM (pyPrefix5 r0.departure_time) = none)
    (hparts : pyTimeParts r0.departure_time = some (h, m))
    (hh : 24 ≤ h) (hm0 : 0 ≤ m) (hm : m < 60) :
    computeLinea rowsP t nowStr rid sn hs =
      some ⟨sn, pyPrefix5 r0.departure_time, sigOf rest, hs,
        some (((if dayStart t + h.fmod 24 * 3600 + m * 60 + h.fdiv 24 * 86400 < truncMin t
            then dayStart t + h.fmod 24 * 3600 + m * 60 + h.fdiv 24 * 86400 + 86400
            else dayStart t + h.fmod 24 * 3600 + m * 60 + h.fdiv 24 * 86400)
          - truncMin t).fdiv 60)⟩ := by
  unfold computeLinea
  rw [hprox]
  dsimp only
  rw [hparse, hparts]
  dsimp only
  rw [if_pos (show (0 : Int) ≤ m ∧ m < 60 from ⟨hm0, hm⟩)]
  unfold minutosExtendido
  dsimp only
  rw [if_pos hh]

unseal List.merge List.mergeSort in
/-- Witness for C2: departure 24:05 with now 23:50:00 the same day gives
minutos_restantes 15, through the full per-group computation. -/
theorem c2_extended_time_witness :
    computeLinea [⟨1, 14165, "24:05:00", 10, 7, "Martorell"⟩] (23 * 3600 + 50 * 60)
        "23:50:00" 7 (some "R4") "Martorell" =
      some ⟨some "R4", "24:05", "N/A", "Martorell", some 15⟩ := by
  have h := c2_extended_time [⟨1, 14165, "24:05:00", 10, 7, "Martorell"⟩]
    (23 * 3600 + 50 * 60) "23:50:00" 7 (some "R4") "Martorell"
    ⟨1, 14165, "24:05:00", 10, 7, "Martorell"⟩ [] 24 5
    (by decide) (by decide) (by decide) (by decide) (by decide) (by decide)
  rw [h]
  decide

/-! ### C7: ordinary time with rollover to the next day -/

/-- C7.  When the soonest remaining departure parses as an ordinary
time-of-day (hour below 24) and its candidate on the day of now lies
strictly before now, the calculator advances the candidate one day and the
resolved minutos_restantes is the floored difference in seconds divided by
60; in particular the branch computing minutes maps the 08:00 departure
evaluated at 08:05:00 to 1435. -/
theorem c7_ordinary_rollover (rowsP : List Row) (t : Int) (nowStr : String)
    (rid : Int) (sn : Option String) (hs : String) (r0 : Row) (rest : List Row)
    (h m : Nat)
    (hprox : proximosFor rowsP rid hs nowStr = r0 :: rest)
    (hparse : parseHM (pyPrefix5 r0.departure_time) = some (h, m))
    (hlt : dayStart t + (h : Int) * 3600 + (m : Int) * 60 < t) :
    (computeLinea rowsP t nowStr rid sn hs =
      some ⟨sn, pyPrefix5 r0.departure_time, sigOf rest, hs,
        some ((dayStart t + (h : Int) * 3600 + (m : Int) * 60 + 86400 - t).fdiv 60)⟩) ∧
    minutosOrdinario 8 0 (8 * 3600 + 5 * 60) = 1435 := by
  constructor
  · unfold computeLinea
    rw [hprox]
    dsimp only
    rw [hparse]
    dsimp only
    unfold minutosOrdinario
    dsimp only
    rw [if_pos hlt]
  · decide

unseal List.merge List.mergeSort in
/-- Witness for C7: a departure 08:05:30 evaluated at now 08:05:15 has its
second-truncated candidate strictly before now, rolls one day forward and
resolves to 1439 minutes. -/
theorem c7_ordinary_rollover_witness :
    (computeLinea [⟨1, 14165, "08:05:30", 10, 7, "Martorell"⟩]
        (8 * 3600 + 5 * 60 + 15) "08:05:15" 7 (some "R4") "Martorell" =
      some ⟨some "R4", "08:05", "N/A", "Martorell", some 1439⟩) ∧
    minutosOrdinario 8 0 (8 * 3600 + 5 * 60) = 1435 := by
  have h := c7_ordinary_rollover [⟨1, 14165, "08:05:30", 10, 7, "Martorell"⟩]
    (8 * 3600 + 5 * 60 + 15) "08:05:15" 7 (some "R4") "Martorell"
    ⟨1, 14165, "08:05:30", 10, 7, "Martorell"⟩ [] 8 5
    (by decide) (by decide) (by decide)
  exact ⟨by rw [h.1]; decide, h.2⟩

/-! ### C9: shape of the emitted time-of-day fields -/

theorem computeLinea_shape {rowsP : List Row} {t : Int} {nowStr : String} {rid : Int}
    {sn : Option String} {hs : String} {e : DepartureEntry}
    (hwf : ∀ r ∈ rowsP, isHM (pyPrefix5 r.departure_time) = true)
    (heq : computeLinea rowsP t nowStr rid sn hs = some e) :
    (e.proximo_bus = "N/A" ∨ isHM e.proximo_bus = true) ∧
    (e.siguiente_bus = "N/A" ∨ isHM e.siguiente_bus = true) := by
  unfold computeLinea at heq
  rcases hp : proximosFor rowsP rid hs nowStr with _ | ⟨r0, rest⟩ <;> rw [hp] at heq
  · cases heq
    exact ⟨Or.inl rfl, Or.inl rfl⟩
  · have hr0 : r0 ∈ rowsP :=
      proximosFor_subset rowsP rid hs nowStr r0 (hp ▸ List.mem_cons_self ..)
    have hshape0 := hwf r0 hr0
    have hsig : sigOf rest = "N/A" ∨ isHM (sigOf rest) = true := by
      cases hrest : rest with
      | nil => exact Or.inl rfl
      | cons r1 rs =>
        have hr1 : r1 ∈ rowsP := by
          refine proximosFor_subset rowsP rid hs nowStr r1 ?_
          rw [hp, hrest]
          exact List.mem_cons_of_mem _ (List.mem_cons_self ..)
        exact Or.inr (by simpa [sigOf] using hwf r1 hr1)
    dsimp only at heq
    rcases hparse : parseHM (pyPrefix5 r0.departure_time) with _ | ⟨h, m⟩ <;>
      rw [hparse] at heq
    · rcases hparts : pyTimeParts r0.departure_time with _ | ⟨h, m⟩ <;>
        rw [hparts] at heq
      · cases heq
      · dsimp only at heq
        split at heq
        · cases heq
          exact ⟨Or.inr hshape0, hsig⟩
        · cases heq
    · cases heq
      exact ⟨Or.inr hshape0, hsig⟩

/-- C9.  Under well-shaped departure strings (the first five characters are
a two-digit hour, a colon and a two-digit minute, which also covers
extended notation such as 24:05), every entry the calculator produces has
proximo_bus and siguiente_bus each equal to the absent marker or to an
HH:MM string. -/
theorem c9_time_field_shape (pid : Int) (rows : List Row) (routes : List Route)
    (t : Int) (nowStr : String) (es : List DepartureEntry)
    (hwf : ∀ r ∈ rows, isHM (pyPrefix5 r.departure_time) = true)
    (hc : calcular pid rows routes t nowStr = some es) :
    ∀ e ∈ es, (e.proximo_bus = "N/A" ∨ isHM e.proximo_bus = true) ∧
      (e.siguiente_bus = "N/A" ∨ isHM e.siguiente_bus = true) := by
  intro e he
  unfold calcular at hc
  rcases forall₂_mem_right (mapOpt_forall₂ hc) e he with ⟨l, _, hl⟩
  refine computeLinea_shape ?_ hl
  intro r hr
  exact hwf r (List.mem_of_mem_filter hr)

unseal List.merge List.mergeSort in
/-- Witness for C9: with an ordinary and an extended departure at the stop,
the produced entry carries 23:55 and 24:05, both of HH:MM shape. -/
theorem c9_time_field_shape_witness :
    (("23:55" : String) = "N/A" ∨ isHM "23:55" = true) ∧
    (("24:05" : String) = "N/A" ∨ isHM "24:05" = true) :=
  c9_time_field_shape 14165
    [⟨1, 14165, "24:05:00", 10, 7, "Martorell"⟩,
      ⟨2, 14165, "23:55:00", 10, 7, "Martorell"⟩]
    [⟨7, "R4"⟩] (23 * 3600 + 50 * 60) "23:50:00"
    [⟨some "R4", "23:55", "24:05", "Martorell", some 5⟩]
    (by decide) (by decide)
    ⟨some "R4", "23:55", "24:05", "Martorell", some 5⟩ (by decide)

/-! ### C5: empty active set is the single terminal case -/

/-- C5.  When the resolved active service set is empty the orchestrator
returns the terminal no-service message for any requested identifier list,
without entering per-stop processing; and whenever the orchestrator
returns, its result is that message exactly when the active set is empty,
every other returned result being the per-identifier mapping. -/
theorem c5_no_service_terminal (g : Gtfs) (t : Int) (wd : Fin 7) (today : Int) :
    (activeServices g.calendar g.calendar_dates wd today = [] →
      ∀ ids : List String, processBatch g t wd today ids = some (.message noServiceMsg)) ∧
    (∀ (ids : List String) (r : BatchResult), processBatch g t wd today ids = some r →
      (r = .message noServiceMsg ↔ activeServices g.calendar g.calendar_dates wd today = [])) ∧
    (activeServices g.calendar g.calendar_dates wd today ≠ [] →
      ∀ (ids : List String) (r : BatchResult), processBatch g t wd today ids = some r →
        ∃ m, r = .results m) := by
  refine ⟨?_, ?_, ?_⟩
  · intro hempty ids
    simp [processBatch, hempty]
  · intro ids r hr
    unfold processBatch at hr
    dsimp only at hr
    rcases hA : (activeServices g.calendar g.calendar_dates wd today).isEmpty with _ | _ <;>
      rw [hA] at hr
    · simp only [Bool.false_eq_true, if_false, Option.map_eq_some'] at hr
      rcases hr with ⟨l, _, rfl⟩
      constructor
      · intro hmsg
        cases hmsg
      · intro hnil
        rw [hnil] at hA
        simp at hA
    · simp only [if_true] at hr
      cases hr
      rw [List.isEmpty_iff] at hA
      simp [hA]
  · intro hne ids r hr
    unfold processBatch at hr
    dsimp only at hr
    rcases hA : (activeServices g.calendar g.calendar_dates wd today).isEmpty with _ | _ <;>
      rw [hA] at hr
    · simp only [Bool.false_eq_true, if_false, Option.map_eq_some'] at hr
      rcases hr with ⟨l, _, rfl⟩
      exact ⟨l, rfl⟩
    · rw [List.isEmpty_iff] at hA
      exact absurd hA hne

/-- Witness for C5: a table set with no weekday-flagged calendar row and no
exception produces the terminal message for a nonempty identifier list. -/
theorem c5_no_service_terminal_witness :
    processBatch ⟨[⟨14165, "Pl Espanya"⟩], [], [], [], [], []⟩ 0 ⟨0, by decide⟩ 20251012
        ["TUS_14165"] =
      some (.message noServiceMsg) :=
  (c5_no_service_terminal ⟨[⟨14165, "Pl Espanya"⟩], [], [], [], [], []⟩ 0 ⟨0, by decide⟩
    20251012).1 (by decide) ["TUS_14165"]

/-! ### C4: raw identifier normalization and per-stop isolation -/

/-- C4.  Each raw identifier is handled independently: direct integer parse
first, then the digits remaining after stripping non-digits, a digit-free
identifier producing a per-stop error entry rather than aborting; the
identifier TUS_14165 resolves to numeric id 14165 and proceeds to the
calculator, while TUS yields an error entry; and every identifier of a
batch that returns a mapping contributes exactly its independently computed
per-stop outcome to that mapping. -/
theorem c4_id_normalization :
    (pyNormalizeId "TUS_14165" = some 14165 ∧ pyNormalizeId "TUS" = none) ∧
    (∀ (g : Gtfs) (rowsBase : List Row) (t : Int) (nowStr : String),
      processOne g rowsBase t nowStr "TUS" =
        some ("TUS", .err "ID TUS es puramente no numerico.")) ∧
    (∀ (g : Gtfs) (rowsBase : List Row) (t : Int) (nowStr : String) (st : Stop),
      (g.stops.filter (fun s0 => s0.stop_id = 14165)).head? = some st →
      processOne g rowsBase t nowStr "TUS_14165" =
        (calcular 14165 rowsBase g.routes t nowStr).map (fun hsAll =>
          ("TUS_14165", .ok st.stop_name "TUS_14165"
            ((hsAll.filter (fun e => e.minutos_restantes ≠ none)).mergeSort entLe)))) ∧
    (∀ (g : Gtfs) (t : Int) (wd : Fin 7) (today : Int) (ids : List String)
        (m : List (String × StopOut)),
      processBatch g t wd today ids = some (.results m) →
      ∀ raw ∈ ids, ∃ p ∈ m,
        processOne g (rowsBaseOf g (activeServices g.calendar g.calendar_dates wd today))
          t (fmtHMS t) raw = some p) := by
  refine ⟨⟨by decide, by decide⟩, ?_, ?_, ?_⟩
  · intro g rowsBase t nowStr
    have h1 : pyNormalizeId (pyStrip "TUS") = none := by decide
    unfold processOne
    dsimp only
    rw [h1]
    dsimp only
    decide
  · intro g rowsBase t nowStr st hst
    have h1 : pyNormalizeId (pyStrip "TUS_14165") = some 14165 := by decide
    unfold processOne
    dsimp only
    rw [h1]
    dsimp only
    rw [hst]
  · intro g t wd today ids m hB raw hraw
    unfold processBatch at hB
    dsimp only at hB
    rcases hA : (activeServices g.calendar g.calendar_dates wd today).isEmpty with _ | _ <;>
      rw [hA] at hB
    · simp only [Bool.false_eq_true, if_false, Option.map_eq_some'] at hB
      rcases hB with ⟨l, hl, hres⟩
      cases hres
      exact forall₂_mem_left (mapOpt_forall₂ hl) raw hraw
    · simp only [if_true] at hB
      cases hB

unseal List.merge List.mergeSort in
/-- Witness for C4: against a one-stop table, TUS yields a per-stop error
entry and TUS_14165 resolves to stop 14165 and returns its result object. -/
theorem c4_id_normalization_witness :
    (processOne ⟨[⟨14165, "Pl Espanya"⟩], [], [], [], [], []⟩ [] 0 "00:00:00" "TUS" =
      some ("TUS", .err "ID TUS es puramente no numerico.")) ∧
    (processOne ⟨[⟨14165, "Pl Espanya"⟩], [], [], [], [], []⟩ [] 0 "00:00:00" "TUS_14165" =
      some ("TUS_14165", .ok "Pl Espanya" "TUS_14165" [])) := by
  constructor
  · exact c4_id_normalization.2.1 ⟨[⟨14165, "Pl Espanya"⟩], [], [], [], [], []⟩ [] 0 "00:00:00"
  · have h := c4_id_normalization.2.2.1 ⟨[⟨14165, "Pl Espanya"⟩], [], [], [], [], []⟩ []
      0 "00:00:00" ⟨14165, "Pl Espanya"⟩ (by decide)
    rw [h]
    decide

/-! ### C3: one entry per enumerated pair; fields of the empty entry -/

unseal List.merge List.mergeSort in
/-- Counterexample to C3 as stated: at a stop whose only (route, destination)
pair has no departure remaining after now, the emitted entry does not have
all fields set to the absent marker: destino keeps the headsign Martorell
and linea keeps the short name R4. -/
theorem c3_counterexample :
    calcular 14165 [⟨2, 14165, "08:00:00", 10, 7, "Martorell"⟩] [⟨7, "R4"⟩]
        (9 * 3600) "09:00:00" =
      some [⟨some "R4", "N/A", "N/A", "Martorell", none⟩] ∧
    proximosFor ([⟨2, 14165, "08:00:00", 10, 7, "Martorell"⟩].filter
        (fun r => r.stop_id = 14165)) 7 "Martorell" "09:00:00" = [] ∧
    ("Martorell" : String) ≠ "N/A" ∧ (some "R4" : Option String) ≠ some "N/A" := by
  refine ⟨by decide, by decide, by decide, by decide⟩

theorem filter_route_single {routes : List Route}
    (hnd : (routes.map (fun r => r.route_id)).Nodup) (a : Int) :
    routes.filter (fun r => r.route_id = a) = [] ∨
      ∃ r0, routes.filter (fun r => r.route_id = a) = [r0] := by
  induction routes with
  | nil => exact Or.inl rfl
  | cons r rs ih =>
    simp only [List.map_cons, List.nodup_cons] at hnd
    by_cases hr : r.route_id = a
    · right
      refine ⟨r, ?_⟩
      rw [List.filter_cons_of_pos (by simp [hr])]
      have hnil : rs.filter (fun x => x.route_id = a) = [] := by
        rw [List.filter_eq_nil_iff]
        intro x hx
        simp only [decide_eq_true_eq]
        intro hxa
        exact hnd.1 (List.mem_map.mpr ⟨x, hx, by rw [hxa, hr]⟩)
      rw [hnil]
    · rw [List.filter_cons_of_neg (by simp [hr])]
      exact ih hnd.2

theorem lineasFor_map_proj {rows : List Row} {routes : List Route} {pid : Int}
    (hnd : (routes.map (fun r => r.route_id)).Nodup) :
    (lineasFor rows routes pid).map (fun l => (l.1, l.2.2)) =
      (((rows.filter (fun r => r.stop_id = pid)).map
          (fun r => (r.route_id, r.trip_headsign))).dedup).mergeSort pairLe := by
  unfold lineasFor
  dsimp only
  generalize (((rows.filter (fun r => r.stop_id = pid)).map
      (fun r => (r.route_id, r.trip_headsign))).dedup).mergeSort pairLe = ps
  induction ps with
  | nil => rfl
  | cons p ps ih =>
    rw [List.flatMap_cons, List.map_append, ih]
    rcases filter_route_single hnd p.1 with h | ⟨r0, h⟩ <;> rw [h] <;> simp

/-- C3 (amended).  The calculator emits exactly one entry per enumerated
(route, short name, destination) tuple — distinct (route, destination)
pairs whenever routes are unique per route_id — and when no departure of
the tuple remains after now, the entry has proximo_bus, siguiente_bus and
minutos_restantes absent, while linea carries the route short name and
destino carries the destination headsign. -/
theorem c3_entry_per_pair (pid : Int) (rows : List Row) (routes : List Route)
    (t : Int) (nowStr : String) (es : List DepartureEntry)
    (hc : calcular pid rows routes t nowStr = some es) :
    es.length = (lineasFor rows routes pid).length ∧
    List.Forall₂
      (fun (l : Int × Option String × String) (e : DepartureEntry) =>
        proximosFor (rows.filter (fun r => r.stop_id = pid)) l.1 l.2.2 nowStr = [] →
          e = ⟨l.2.1, "N/A", "N/A", l.2.2, none⟩)
      (lineasFor rows routes pid) es ∧
    ((routes.map (fun r => r.route_id)).Nodup →
      ((lineasFor rows routes pid).map (fun l => (l.1, l.2.2))).Nodup) := by
  unfold calcular at hc
  have h2 := mapOpt_forall₂ hc
  refine ⟨(List.Forall₂.length_eq h2).symm, ?_, ?_⟩
  · refine h2.imp ?_
    intro l e hle hempty
    unfold computeLinea at hle
    rw [hempty] at hle
    cases hle
    rfl
  · intro hnd
    rw [lineasFor_map_proj hnd]
    exact ((List.mergeSort_perm _ pairLe).nodup_iff).mpr (List.nodup_dedup _)

unseal List.merge List.mergeSort in
/-- Witness for the amended C3 at a concrete input with an empty remaining
set for its single enumerated tuple. -/
theorem c3_entry_per_pair_witness :
    ([(⟨some "R4", "N/A", "N/A", "Manresa", none⟩ : DepartureEntry)]).length =
      (lineasFor [⟨2, 14165, "07:00:00", 10, 9, "Manresa"⟩] [⟨9, "R4"⟩] 14165).length ∧
    List.Forall₂
      (fun (l : Int × Option String × String) (e : DepartureEntry) =>
        proximosFor ([⟨2, 14165, "07:00:00", 10, 9, "Manresa"⟩].filter
            (fun r => r.stop_id = 14165)) l.1 l.2.2 "09:00:00" = [] →
          e = ⟨l.2.1, "N/A", "N/A", l.2.2, none⟩)
      (lineasFor [⟨2, 14165, "07:00:00", 10, 9, "Manresa"⟩] [⟨9, "R4"⟩] 14165)
      [⟨some "R4", "N/A", "N/A", "Manresa", none⟩] ∧
    ((([(⟨9, "R4"⟩ : Route)]).map (fun r => r.route_id)).Nodup →
      ((lineasFor [⟨2, 14165, "07:00:00", 10, 9, "Manresa"⟩] [⟨9, "R4"⟩] 14165).map
          (fun l => (l.1, l.2.2))).Nodup) :=
  c3_entry_per_pair 14165 [⟨2, 14165, "07:00:00", 10, 9, "Manresa"⟩] [⟨9, "R4"⟩]
    (9 * 3600) "09:00:00" [⟨some "R4", "N/A", "N/A", "Manresa", none⟩] (by decide)

/-! ### C6: per-stop success output -/

/-- C6.  A resolved stop is emitted under its original raw identifier, with
the looked-up stop name and the raw id, and its departure list drops every
entry whose minutos_restantes is still absent and is sorted ascending by
minutos_restantes. -/
theorem c6_sorted_output (g : Gtfs) (rowsBase : List Row) (t : Int) (nowStr : String)
    (raw : String) (pid : Int) (st : Stop) (hsAll : List DepartureEntry)
    (hid : pyNormalizeId (pyStrip raw) = some pid)
    (hst : (g.stops.filter (fun s0 => s0.stop_id = pid)).head? = some st)
    (hc : calcular pid rowsBase g.routes t nowStr = some hsAll) :
    ∃ L, processOne g rowsBase t nowStr raw = some (raw, .ok st.stop_name raw L) ∧
      (∀ e ∈ L, e.minutos_restantes ≠ none) ∧
      L.Pairwise (fun a b => keyMinutos a ≤ keyMinutos b) := by
  refine ⟨(hsAll.filter (fun e => e.minutos_restantes ≠ none)).mergeSort entLe, ?_, ?_, ?_⟩
  · unfold processOne
    dsimp only
    rw [hid]
    dsimp only
    rw [hst]
    dsimp only
    rw [hc]
    rfl
  · intro e he
    have h1 := (List.mergeSort_perm _ entLe).mem_iff.mp he
    have h2 := List.mem_filter.mp h1
    simpa using h2.2
  · have htrans : ∀ a b c : DepartureEntry,
        entLe a b = true → entLe b c = true → entLe a c = true := by
      intro a b c h1 h2
      simp only [entLe, decide_eq_true_eq] at h1 h2 ⊢
      omega
    have htotal : ∀ a b : DepartureEntry, (entLe a b || entLe b a) = true := by
      intro a b
      simp only [entLe, Bool.or_eq_true, decide_eq_true_eq]
      omega
    have hs := List.sorted_mergeSort htrans htotal
      (hsAll.filter (fun e => e.minutos_restantes ≠ none))
    refine hs.imp ?_
    intro a b hab
    simpa [entLe] using hab

unseal List.merge List.mergeSort in
/-- Witness for C6: the success result for TUS_14165 at the concrete tables
is keyed by the raw identifier and carries the sorted resolved entry. -/
theorem c6_sorted_output_witness :
    ∃ L, processOne
        ⟨[⟨14165, "Pl Espanya"⟩], [⟨1, 14165, "24:05:00"⟩], [⟨1, 10, 7, "Martorell"⟩],
          [⟨10, 1, 1, 1, 1, 1, 1, 1, 0, 0⟩], [], [⟨7, "R4"⟩]⟩
        [⟨1, 14165, "24:05:00", 10, 7, "Martorell"⟩] (23 * 3600 + 50 * 60) "23:50:00"
        "TUS_14165" =
      some ("TUS_14165", .ok (Stop.stop_name ⟨14165, "Pl Espanya"⟩) "TUS_14165" L) ∧
      (∀ e ∈ L, e.minutos_restantes ≠ none) ∧
      L.Pairwise (fun a b => keyMinutos a ≤ keyMinutos b) :=
  c6_sorted_output
    ⟨[⟨14165, "Pl Espanya"⟩], [⟨1, 14165, "24:05:00"⟩], [⟨1, 10, 7, "Martorell"⟩],
      [⟨10, 1, 1, 1, 1, 1, 1, 1, 0, 0⟩], [], [⟨7, "R4"⟩]⟩
    [⟨1, 14165, "24:05:00", 10, 7, "Martorell"⟩] (23 * 3600 + 50 * 60) "23:50:00"
    "TUS_14165" 14165 ⟨14165, "Pl Espanya"⟩
    [⟨some "R4", "24:05", "N/A", "Martorell", some 15⟩]
    (by decide) (by decide) (by decide)

/-! ### C8: geo-nearest resolver -/

theorem nearestAux_skip (dist : ℚ → ℚ → ℚ → ℚ → ℚ) (parse : String → Option (ℚ × ℚ))
    (ulat ulon : ℚ) :
    ∀ (gs : List (String × GroupCfg)) (best : Option (String × ℚ)),
      nearestAux dist parse ulat ulon gs best =
        nearestAux dist parse ulat ulon
          (gs.filter (fun gp => (coordsOf parse gp.2).isSome)) best := by
  intro gs
  induction gs with
  | nil => intro best; rfl
  | cons g gs ih =>
    intro best
    obtain ⟨name, cfg⟩ := g
    rcases hco : coordsOf parse cfg with _ | ⟨la, lo⟩
    · rw [List.filter_cons_of_neg (by simp [hco])]
      simp only [nearestAux, hco]
      exact ih best
    · rw [List.filter_cons_of_pos (by simp [hco])]
      simp only [nearestAux, hco]
      cases best with
      | none => exact ih _
      | some b =>
        obtain ⟨bn, bd⟩ := b
        dsimp only
        split <;> exact ih _

theorem nearestAux_none_iff (dist : ℚ → ℚ → ℚ → ℚ → ℚ) (parse : String → Option (ℚ × ℚ))
    (ulat ulon : ℚ) :
    ∀ (gs : List (String × GroupCfg)) (best : Option (String × ℚ)),
      nearestAux dist parse ulat ulon gs best = none ↔
        best = none ∧ ∀ gp ∈ gs, coordsOf parse gp.2 = none := by
  intro gs
  induction gs with
  | nil => intro best; simp [nearestAux]
  | cons g gs ih =>
    intro best
    obtain ⟨name, cfg⟩ := g
    rcases hco : coordsOf parse cfg with _ | ⟨la, lo⟩
    · simp only [nearestAux, hco]
      rw [ih best]
      simp [hco, List.forall_mem_cons]
    · simp only [nearestAux, hco]
      cases best with
      | none =>
        rw [ih _]
        simp [hco, List.forall_mem_cons]
      | some b =>
        obtain ⟨bn, bd⟩ := b
        dsimp only
        split <;> rw [ih _] <;> simp [hco, List.forall_mem_cons]

theorem nearestAux_spec (dist : ℚ → ℚ → ℚ → ℚ → ℚ) (parse : String → Option (ℚ × ℚ))
    (ulat ulon : ℚ) :
    ∀ (gs : List (String × GroupCfg)) (best : Option (String × ℚ)) (n : String) (d : ℚ),
      nearestAux dist parse ulat ulon gs best = some (n, d) →
      ((best = some (n, d) ∨
        ∃ cfg la lo, (n, cfg) ∈ gs ∧ coordsOf parse cfg = some (la, lo) ∧
          d = dist ulat ulon la lo) ∧
       (∀ bn bd, best = some (bn, bd) → d ≤ bd) ∧
       (∀ gp la lo, gp ∈ gs → coordsOf parse gp.2 = some (la, lo) →
          d ≤ dist ulat ulon la lo)) := by
  intro gs
  induction gs with
  | nil =>
    intro best n d h
    simp only [nearestAux] at h
    refine ⟨Or.inl h, ?_, ?_⟩
    · intro bn bd hb
      have heq := hb.symm.trans h
      rw [Option.some.injEq, Prod.mk.injEq] at heq
      exact le_of_eq heq.2.symm
    · intro gp la lo hgp
      cases hgp
  | cons g gs ih =>
    intro best n d h
    obtain ⟨name, cfg⟩ := g
    rcases hco : coordsOf parse cfg with _ | ⟨la0, lo0⟩
    · simp only [nearestAux, hco] at h
      obtain ⟨h1, h2, h3⟩ := ih best n d h
      refine ⟨?_, h2, ?_⟩
      · rcases h1 with h1 | ⟨cfg2, la, lo, hmem, hc2, hd⟩
        · exact Or.inl h1
        · exact Or.inr ⟨cfg2, la, lo, List.mem_cons_of_mem _ hmem, hc2, hd⟩
      · intro gp la lo hgp hcg
        rcases List.mem_cons.mp hgp with rfl | hgp
        · rw [hco] at hcg
          cases hcg
        · exact h3 gp la lo hgp hcg
    · simp only [nearestAux, hco] at h
      cases best with
      | none =>
        dsimp only at h
        obtain ⟨h1, h2, h3⟩ := ih (some (name, dist ulat ulon la0 lo0)) n d h
        refine ⟨?_, ?_, ?_⟩
        · rcases h1 with h1 | ⟨cfg2, la, lo, hmem, hc2, hd⟩
          · rw [Option.some.injEq, Prod.mk.injEq] at h1
            obtain ⟨rfl, rfl⟩ := h1
            exact Or.inr ⟨cfg, la0, lo0, List.mem_cons_self .., hco, rfl⟩
          · exact Or.inr ⟨cfg2, la, lo, List.mem_cons_of_mem _ hmem, hc2, hd⟩
        · intro bn bd hb
          cases hb
        · intro gp la lo hgp hcg
          rcases List.mem_cons.mp hgp with rfl | hgp
          · rw [hco, Option.some.injEq, Prod.mk.injEq] at hcg
            obtain ⟨rfl, rfl⟩ := hcg
            exact h2 name _ rfl
          · exact h3 gp la lo hgp hcg
      | some b =>
        obtain ⟨bn, bd⟩ := b
        dsimp only at h
        by_cases hlt : dist ulat ulon la0 lo0 < bd
        · rw [if_pos hlt] at h
          obtain ⟨h1, h2, h3⟩ := ih (some (name, dist ulat ulon la0 lo0)) n d h
          refine ⟨?_, ?_, ?_⟩
          · rcases h1 with h1 | ⟨cfg2, la, lo, hmem, hc2, hd⟩
            · rw [Option.some.injEq, Prod.mk.injEq] at h1
              obtain ⟨rfl, rfl⟩ := h1
              exact Or.inr ⟨cfg, la0, lo0, List.mem_cons_self .., hco, rfl⟩
            · exact Or.inr ⟨cfg2, la, lo, List.mem_cons_of_mem _ hmem, hc2, hd⟩
          · intro bn2 bd2 hb
            rw [Option.some.injEq, Prod.mk.injEq] at hb
            obtain ⟨rfl, rfl⟩ := hb
            exact le_of_lt (lt_of_le_of_lt (h2 name _ rfl) hlt)
          · intro gp la lo hgp hcg
            rcases List.mem_cons.mp hgp with rfl | hgp
            · rw [hco, Option.some.injEq, Prod.mk.injEq] at hcg
              obtain ⟨rfl, rfl⟩ := hcg
              exact h2 name _ rfl
            · exact h3 gp la lo hgp hcg
        · rw [if_neg hlt] at h
          obtain ⟨h1, h2, h3⟩ := ih (some (bn, bd)) n d h
          refine ⟨?_, ?_, ?_⟩
          · rcases h1 with h1 | ⟨cfg2, la, lo, hmem, hc2, hd⟩
            · exact Or.inl h1
            · exact Or.inr ⟨cfg2, la, lo, List.mem_cons_of_mem _ hmem, hc2, hd⟩
          · exact h2
          · intro gp la lo hgp hcg
            rcases List.mem_cons.mp hgp with rfl | hgp
            · rw [hco, Option.some.injEq, Prod.mk.injEq] at hcg
              obtain ⟨rfl, rfl⟩ := hcg
              exact le_trans (h2 bn bd rfl) (not_lt.mp hlt)
            · exact h3 gp la lo hgp hcg

/-- C8.  The geo-nearest scan never fails: groups with missing or
unparseable coordinates are skipped (the result is that of the valid
sublist alone), the empty result arises exactly when no group has valid
coordinates, and a returned group is a valid one achieving the minimum
distance among all valid groups, its reported distance being the rounding
of its distance to two decimals.  The distance and coordinate parsers are
parameters: the source computes them with haversine trigonometry and float
parsing, whose numerics are outside this embedding. -/
theorem c8_nearest_group (dist : ℚ → ℚ → ℚ → ℚ → ℚ) (parse : String → Option (ℚ × ℚ))
    (ulat ulon : ℚ) (groups : List (String × GroupCfg)) :
    (getNearestGroup dist parse ulat ulon groups =
      getNearestGroup dist parse ulat ulon
        (groups.filter (fun gp => (coordsOf parse gp.2).isSome))) ∧
    (getNearestGroup dist parse ulat ulon groups = none ↔
      ∀ gp ∈ groups, coordsOf parse gp.2 = none) ∧
    (∀ n rd, getNearestGroup dist parse ulat ulon groups = some (n, rd) →
      ∃ cfg la lo, (n, cfg) ∈ groups ∧ coordsOf parse cfg = some (la, lo) ∧
        rd = round2 (dist ulat ulon la lo) ∧
        ∀ gp la2 lo2, gp ∈ groups → coordsOf parse gp.2 = some (la2, lo2) →
          dist ulat ulon la lo ≤ dist ulat ulon la2 lo2) := by
  refine ⟨?_, ?_, ?_⟩
  · unfold getNearestGroup
    rw [nearestAux_skip]
  · unfold getNearestGroup
    rw [Option.map_eq_none', nearestAux_none_iff]
    simp
  · intro n rd hres
    unfold getNearestGroup at hres
    rw [Option.map_eq_some'] at hres
    obtain ⟨⟨pn, pd⟩, haux, hpair⟩ := hres
    rw [Prod.mk.injEq] at hpair
    obtain ⟨rfl, rfl⟩ := hpair
    obtain ⟨h1, _, h3⟩ := nearestAux_spec dist parse ulat ulon groups none pn pd haux
    rcases h1 with h1 | ⟨cfg, la, lo, hmem, hc, hd⟩
    · cases h1
    · exact ⟨cfg, la, lo, hmem, hc, by rw [hd], fun gp la2 lo2 hgp hcg =>
        hd ▸ h3 gp la2 lo2 hgp hcg⟩

/-- Witness for C8: with one parseable group, one missing-coordinate group
and one malformed group, the resolver returns the parseable group with its
rounded distance, which is minimal among the valid groups. -/
theorem c8_nearest_group_witness :
    ∃ cfg la lo,
      ("A", cfg) ∈ [("A", (⟨some "1,1"⟩ : GroupCfg)), ("B", ⟨none⟩), ("C", ⟨some "x"⟩)] ∧
      coordsOf (fun s => if s = "1,1" then some (1, 1) else none) cfg = some (la, lo) ∧
      (2 : ℚ) = round2 ((fun a b c d => (a - c) * (a - c) + (b - d) * (b - d))
        (0 : ℚ) (0 : ℚ) la lo) ∧
      ∀ gp la2 lo2,
        gp ∈ [("A", (⟨some "1,1"⟩ : GroupCfg)), ("B", ⟨none⟩), ("C", ⟨some "x"⟩)] →
        coordsOf (fun s => if s = "1,1" then some (1, 1) else none) gp.2 = some (la2, lo2) →
        (fun a b c d => (a - c) * (a - c) + (b - d) * (b - d)) (0 : ℚ) (0 : ℚ) la lo ≤
          (fun a b c d => (a - c) * (a - c) + (b - d) * (b - d)) (0 : ℚ) (0 : ℚ) la2 lo2 :=
  (c8_nearest_group (fun a b c d => (a - c) * (a - c) + (b - d) * (b - d))
    (fun s => if s = "1,1" then some (1, 1) else none) 0 0
    [("A", ⟨some "1,1"⟩), ("B", ⟨none⟩), ("C", ⟨some "x"⟩)]).2.2 "A" 2 (by
      simp only [getNearestGroup, nearestAux, coordsOf,
        if_neg (show ¬("1,1" : String) = "" by decide),
        if_pos (show ("1,1" : String) = "1,1" from rfl),
        if_neg (show ¬("x" : String) = "" by decide),
        if_neg (show ¬("x" : String) = "1,1" by decide)]
      norm_num [round2, round_eq])

end BusApi
